import Mathlib

/-!
Verification of the ThinkiPlex PDF generation pipeline
(`thinkiplex/pdf/generator.py` and `thinkiplex/pdf/converters.py`).

Python strings are modelled as lists of characters (`PStr`), Python string
comparison as code-point-lexicographic comparison, machine paths as their
name strings, and fallible operations as `Except`/`Option` values driven by
explicit outcome parameters.
-/

/-- Python strings, modelled as lists of characters (code points). -/
abbrev PStr := List Char

/-- Strict lexicographic comparison of strings by code point, as Python's
`<` on `str` behaves (a proper prefix is smaller; otherwise the first
differing code point decides). -/
def pstrLtB : PStr → PStr → Bool
  | [], [] => false
  | [], _ :: _ => true
  | _ :: _, [] => false
  | a :: as, b :: bs =>
    if a.toNat < b.toNat then true
    else if b.toNat < a.toNat then false
    else pstrLtB as bs

/-- Propositional form of `pstrLtB`. -/
def pstrLt (s t : PStr) : Prop := pstrLtB s t = true

instance pstrLt.decRel : DecidableRel pstrLt := fun s t =>
  inferInstanceAs (Decidable (pstrLtB s t = true))

/-- Non-strict lexicographic comparison, used to model Python's stable
`sorted`/`list.sort` over strings. -/
def pstrLeB (s t : PStr) : Bool := !pstrLtB t s

/-- Appending a common prefix on the left preserves strict lexicographic order. -/
theorem pstrLtB_append_left (p : PStr) {u v : PStr} (h : pstrLtB u v = true) :
    pstrLtB (p ++ u) (p ++ v) = true := by
  induction p with
  | nil => simpa using h
  | cons c cs ih =>
    simpa [pstrLtB, Nat.lt_irrefl] using ih

/-- If two equal-length strings compare strictly, so do their extensions by
arbitrary suffixes. -/
theorem pstrLtB_append_of_length_eq :
    ∀ (as bs : PStr), as.length = bs.length → pstrLtB as bs = true →
      ∀ (u v : PStr), pstrLtB (as ++ u) (bs ++ v) = true := by
  intro as
  induction as with
  | nil =>
    intro bs hlen h _ _
    cases bs with
    | nil => simp [pstrLtB] at h
    | cons b bs' => simp at hlen
  | cons a as' ih =>
    intro bs hlen h u v
    cases bs with
    | nil => simp at hlen
    | cons b bs' =>
      simp only [List.length_cons, Nat.succ.injEq] at hlen
      by_cases hab : a.toNat < b.toNat
      · simp [pstrLtB, hab]
      · by_cases hba : b.toNat < a.toNat
        · simp [pstrLtB, hab, hba] at h
        · simp only [pstrLtB, if_neg hab, if_neg hba] at h
          simpa [pstrLtB, hab, hba] using ih bs' hlen h u v

/-- Auxiliary fueled digit expansion. -/
def natDigitsAux : Nat → Nat → List Char
  | _, 0 => []
  | n, fuel + 1 =>
    if n = 0 then [] else natDigitsAux (n / 10) fuel ++ [Nat.digitChar (n % 10)]

/-- Decimal digit characters of `n`, most significant digit first
(the digits Python's `"%d"` formatting prints). -/
def natDigits (n : Nat) : List Char :=
  if n = 0 then [('0')] else natDigitsAux n (n + 1)

/-- Model of Python `f"{n:04d}"`: the decimal representation of `n`,
left-padded with `'0'` to a minimum width of four characters (numbers of
five or more digits print in full). -/
def fmt4 (n : Nat) : PStr :=
  if n < 10000 then
    [Nat.digitChar (n / 1000), Nat.digitChar (n / 100 % 10),
      Nat.digitChar (n / 10 % 10), Nat.digitChar (n % 10)]
  else natDigits n

theorem fmt4_length {n : Nat} (h : n < 10000) : (fmt4 n).length = 4 := by
  simp [fmt4, h]

/-- `Nat.digitChar` is strictly monotone on single digits, at the level of
code points. -/
theorem digitChar_toNat_lt :
    ∀ x, x < 10 → ∀ y, y < 10 → x < y →
      (Nat.digitChar x).toNat < (Nat.digitChar y).toNat := by decide

/-- Zero-padded four-digit formatting is strictly monotone (as strings in
lexicographic order) below 10000. -/
theorem fmt4_lt {a b : Nat} (hab : a < b) (hb : b < 10000) :
    pstrLtB (fmt4 a) (fmt4 b) = true := by
  have ha : a < 10000 := hab.trans hb
  simp only [fmt4, if_pos ha, if_pos hb]
  rcases Nat.lt_trichotomy (a / 1000) (b / 1000) with h1 | h1 | h1
  · simp [pstrLtB, digitChar_toNat_lt _ (by omega) _ (by omega) h1]
  · rw [h1]
    simp only [pstrLtB, Nat.lt_irrefl, if_neg, if_false]
    rcases Nat.lt_trichotomy (a / 100 % 10) (b / 100 % 10) with h2 | h2 | h2
    · simp [pstrLtB, digitChar_toNat_lt _ (by omega) _ (by omega) h2]
    · rw [h2]
      simp only [pstrLtB, Nat.lt_irrefl, if_neg, if_false]
      rcases Nat.lt_trichotomy (a / 10 % 10) (b / 10 % 10) with h3 | h3 | h3
      · simp [pstrLtB, digitChar_toNat_lt _ (by omega) _ (by omega) h3]
      · rw [h3]
        simp only [pstrLtB, Nat.lt_irrefl, if_neg, if_false]
        have h4 : a % 10 < b % 10 := by omega
        simp [pstrLtB, digitChar_toNat_lt _ (by omega) _ (by omega) h4]
      · omega
    · omega
  · have : a / 1000 ≤ b / 1000 := Nat.div_le_div_right (Nat.le_of_lt hab)
    omega

/-- Strict order between strings that extend four-digit blocks of distinct
numbers below 10000, after a common prefix. -/
theorem pstrLt_blocks {p : PStr} {a b : Nat} (hab : a < b) (hb : b < 10000)
    (u v : PStr) : pstrLt (p ++ (fmt4 a ++ u)) (p ++ (fmt4 b ++ v)) := by
  apply pstrLtB_append_left
  exact pstrLtB_append_of_length_eq _ _
    (by rw [fmt4_length (hab.trans hb), fmt4_length hb]) (fmt4_lt hab hb) u v

/-- Stable insertion used by `sortLe`: `a` is placed before the first
element it compares `le` to. -/
def insertLe {α : Type} (le : α → α → Bool) (a : α) : List α → List α
  | [] => [a]
  | b :: bs => if le a b then a :: b :: bs else b :: insertLe le a bs

/-- Stable insertion sort, modelling Python's stable `sorted`/`list.sort`
(for a total preorder `le`, a stable comparison sort is unique, so this
agrees with the source's sorting). -/
def sortLe {α : Type} (le : α → α → Bool) : List α → List α
  | [] => []
  | a :: as => insertLe le a (sortLe le as)

theorem insertLe_perm {α : Type} (le : α → α → Bool) (a : α) (l : List α) :
    (insertLe le a l).Perm (a :: l) := by
  induction l with
  | nil => exact List.Perm.refl _
  | cons b bs ih =>
    simp only [insertLe]
    by_cases h : le a b
    · rw [if_pos h]
    · rw [if_neg h]
      exact (ih.cons b).trans (List.Perm.swap a b bs)

theorem sortLe_perm {α : Type} (le : α → α → Bool) (l : List α) :
    (sortLe le l).Perm l := by
  induction l with
  | nil => exact List.Perm.refl _
  | cons a as ih => exact (insertLe_perm le a (sortLe le as)).trans (ih.cons a)

theorem insertLe_pairwise {α : Type} {le : α → α → Bool}
    (htot : ∀ a b, le a b = true ∨ le b a = true)
    (htrans : ∀ a b c, le a b = true → le b c = true → le a c = true)
    {l : List α} (hl : l.Pairwise (fun x y => le x y = true)) (a : α) :
    (insertLe le a l).Pairwise (fun x y => le x y = true) := by
  induction l with
  | nil => simp [insertLe]
  | cons b bs ih =>
    rw [List.pairwise_cons] at hl
    obtain ⟨hb, hbs⟩ := hl
    simp only [insertLe]
    by_cases h : le a b = true
    · rw [if_pos h]
      refine List.Pairwise.cons ?_ (List.Pairwise.cons hb hbs)
      intro y hy
      rcases List.mem_cons.mp hy with rfl | hy'
      · exact h
      · exact htrans a b y h (hb y hy')
    · rw [if_neg h]
      have hba : le b a = true := (htot a b).resolve_left h
      refine List.Pairwise.cons ?_ (ih hbs)
      intro y hy
      rcases List.mem_cons.mp ((insertLe_perm le a bs).mem_iff.mp hy) with rfl | hy'
      · exact hba
      · exact hb y hy'

theorem sortLe_pairwise {α : Type} {le : α → α → Bool}
    (htot : ∀ a b, le a b = true ∨ le b a = true)
    (htrans : ∀ a b c, le a b = true → le b c = true → le a c = true)
    (l : List α) : (sortLe le l).Pairwise (fun x y => le x y = true) := by
  induction l with
  | nil => simp [sortLe]
  | cons a as ih => exact insertLe_pairwise htot htrans ih a

/-- ASCII lowering of one character, the fragment of Python `str.lower()`
exercised by the generator's ASCII directory names. -/
def asciiLowerChar (c : Char) : Char :=
  if ('A') ≤ c ∧ c ≤ ('Z') then Char.ofNat (c.toNat + 32) else c

/-- Model of Python `str.lower()` on the ASCII names the generator walks. -/
def pstrLower (s : PStr) : PStr := s.map asciiLowerChar

/-- Model of `re.match(r"^(\d+)\.", name)` followed by `int(group(1))`:
one or more leading decimal digits immediately followed by `'.'`. -/
def leadingNumber (name : PStr) : Option Nat :=
  let ds := name.takeWhile Char.isDigit
  if ds.isEmpty then none
  else if (name.drop ds.length).head? = some ('.') then
    some (ds.foldl (fun acc c => 10 * acc + (c.toNat - 48)) 0)
  else none

/-- Sub-order key of a module subdirectory, from `generator.py` lines
410-422: default `999`, overridden by a parsed leading `<digits>.` number,
and forced back to `999` exactly when the lowered *whole* name is
`"summaries"`. -/
def subdirKey (name : PStr) : Nat :=
  let base := (leadingNumber name).getD 999
  if pstrLower name = ("summaries").data then 999 else base

/-- Subdirectory names skipped during the walk (`generator.py` line 387). -/
def excludedDirs : List PStr := [("audio").data, ("transcripts").data, ("video").data]

/-- Video/audio extensions of `_should_exclude_file` (lines 1144-1146). -/
def excludedExtensions : List PStr :=
  [(".mp4").data, (".avi").data, (".mov").data, (".wmv").data, (".flv").data,
    (".mkv").data, (".mp3").data, (".wav").data, (".aac").data, (".ogg").data,
    (".flac").data, (".m4a").data]

/-- Model of `pathlib`'s `suffix` for a bare file name: the final
dot-extension including the dot, empty when there is none or when the only
dot is the leading character. -/
def extOf (f : PStr) : PStr :=
  let ext := f.reverse.takeWhile (fun c => c ≠ ('.'))
  if ext.length + 1 < f.length then ('.') :: ext.reverse else []

/-- Model of `PDFGenerator._should_exclude_file` (lines 1133-1156) for a
file given by its name: excluded when its lowered extension is a video or
audio extension.  (The source's extra check for a `transcripts` path
component concerns ancestor directories and cannot trigger for a direct
child of a non-excluded subdirectory, which is how files are modelled.) -/
def shouldExcludeFile (f : PStr) : Bool :=
  decide (pstrLower (extOf f) ∈ excludedExtensions)

/-- A subgroup directory within a module: its name and the names of the
candidate files it holds. -/
structure Subdir where
  name : PStr
  files : List PStr
deriving DecidableEq

/-- A module directory: the parsed `<integer>.` number and its
subdirectories (those remaining after the `is_dir` scan). -/
structure CModule where
  num : Nat
  subdirs : List Subdir
deriving DecidableEq

/-- Files one subgroup contributes, in enumeration order (`generator.py`
lines 436-463): the `summaries` branch keeps `*_summary.md` files, every
other branch keeps non-excluded files; both are sorted alphabetically. -/
def selectFiles (d : Subdir) : List PStr :=
  if pstrLower d.name = ("summaries").data then
    sortLe pstrLeB (d.files.filter (fun f => (("_summary.md").data).isSuffixOf f))
  else
    sortLe pstrLeB (d.files.filter (fun f => !shouldExcludeFile f))

/-- The synthetic output filename
`{module:04d}_{subgroup:04d}_{file:04d}_{originalName}` built at
`generator.py` lines 445 and 465. -/
def synthName (mIdx sIdx : PStr) (fileIdx : Nat) (f : PStr) : PStr :=
  mIdx ++ [('_')] ++ sIdx ++ [('_')] ++ fmt4 fileIdx ++ [('_')] ++ f

/-- Names generated for one subgroup's files, the `enumerate` counter
starting at `k`. -/
def nameFiles (mIdx sIdx : PStr) (k : Nat) : List PStr → List PStr
  | [] => []
  | f :: fs => synthName mIdx sIdx k f :: nameFiles mIdx sIdx (k + 1) fs

/-- Names generated module-wide: sorted subgroups receive consecutive
`enumerate` indices (line 428), each contributing its selected files. -/
def nameSubdirs (mIdx : PStr) (k : Nat) : List Subdir → List PStr
  | [] => []
  | d :: ds => nameFiles mIdx (fmt4 k) 0 (selectFiles d) ++ nameSubdirs mIdx (k + 1) ds

/-- Ordering of a module's subdirectories (lines 411-425): excluded names
dropped, then the `(subdir_num, subdir)` tuples sorted; ties on the key
fall back to the path, modelled by the name. -/
def sortSubdirs (ds : List Subdir) : List Subdir :=
  sortLe (fun d e => decide (subdirKey d.name < subdirKey e.name) ||
    (decide (subdirKey d.name = subdirKey e.name) && pstrLeB d.name e.name)) ds

/-- One module's synthetic filenames in enumeration order. -/
def processModule (m : CModule) : List PStr :=
  nameSubdirs (fmt4 m.num) 0
    (sortSubdirs (m.subdirs.filter (fun d => decide (pstrLower d.name ∉ excludedDirs))))

/-- Stable sort of modules by module number (`generator.py` line 400; the
source sorts `(module_num, path)` tuples, whose order is the number order
whenever the numbers are distinct). -/
def sortModules (ms : List CModule) : List CModule :=
  sortLe (fun a b => decide (a.num ≤ b.num)) ms

/-- Model of `PDFGenerator._process_course_files` (lines 390-473): all
synthetic filenames, in the order the files are enumerated. -/
def processCourseFiles (ms : List CModule) : List PStr :=
  (sortModules ms).flatMap processModule

/-- Two synthetic names of the same subgroup with distinct file indices
below 10000 compare strictly in index order. -/
theorem synthName_lt_file {mIdx sIdx : PStr} {a b : Nat} (hab : a < b)
    (hb : b < 10000) (u v : PStr) :
    pstrLt (synthName mIdx sIdx a u) (synthName mIdx sIdx b v) := by
  have h := pstrLt_blocks (p := mIdx ++ [('_')] ++ sIdx ++ [('_')]) hab hb
    ([('_')] ++ u) ([('_')] ++ v)
  simpa [synthName, List.append_assoc] using h

/-- Two synthetic names of the same module with distinct subgroup indices
below 10000 compare strictly in subgroup order, whatever their file
indices and original names. -/
theorem synthName_lt_sub {mIdx : PStr} {k j : Nat} (hkj : k < j) (hj : j < 10000)
    (i i' : Nat) (f g : PStr) :
    pstrLt (synthName mIdx (fmt4 k) i f) (synthName mIdx (fmt4 j) i' g) := by
  have h := pstrLt_blocks (p := mIdx ++ [('_')]) hkj hj
    ([('_')] ++ fmt4 i ++ [('_')] ++ f) ([('_')] ++ fmt4 i' ++ [('_')] ++ g)
  simpa [synthName, List.append_assoc] using h

/-- Two synthetic names with distinct module numbers below 10000 compare
strictly in module order, whatever the rest of the name is. -/
theorem synthName_lt_mod {a b : Nat} (hab : a < b) (hb : b < 10000)
    (s t : PStr) (i i' : Nat) (f g : PStr) :
    pstrLt (synthName (fmt4 a) s i f) (synthName (fmt4 b) t i' g) := by
  have h := pstrLt_blocks (p := ([] : PStr)) hab hb
    ([('_')] ++ s ++ [('_')] ++ fmt4 i ++ [('_')] ++ f)
    ([('_')] ++ t ++ [('_')] ++ fmt4 i' ++ [('_')] ++ g)
  simpa [synthName, List.append_assoc] using h

theorem nameFiles_mem {mIdx sIdx : PStr} {k : Nat} {fs : List PStr} {x : PStr}
    (hx : x ∈ nameFiles mIdx sIdx k fs) :
    ∃ j f, k ≤ j ∧ j < k + fs.length ∧ x = synthName mIdx sIdx j f := by
  induction fs generalizing k with
  | nil => simp [nameFiles] at hx
  | cons f fs ih =>
    rcases List.mem_cons.mp hx with rfl | hx'
    · exact ⟨k, f, Nat.le_refl _, by simp, rfl⟩
    · obtain ⟨j, g, h1, h2, h3⟩ := ih hx'
      exact ⟨j, g, by omega, by simp only [List.length_cons]; omega, h3⟩

theorem nameFiles_pairwise (mIdx sIdx : PStr) (k : Nat) (fs : List PStr)
    (hbound : k + fs.length ≤ 10000) :
    (nameFiles mIdx sIdx k fs).Pairwise pstrLt := by
  induction fs generalizing k with
  | nil => simp [nameFiles]
  | cons f fs ih =>
    simp only [nameFiles]
    refine List.Pairwise.cons ?_ (ih (k + 1) (by simp only [List.length_cons] at hbound; omega))
    intro y hy
    obtain ⟨j, g, hj1, hj2, rfl⟩ := nameFiles_mem hy
    simp only [List.length_cons] at hbound
    exact synthName_lt_file (by omega) (by omega) f g

theorem nameSubdirs_mem {mIdx : PStr} {k : Nat} {ds : List Subdir} {x : PStr}
    (hx : x ∈ nameSubdirs mIdx k ds) :
    ∃ j i f, k ≤ j ∧ j < k + ds.length ∧ x = synthName mIdx (fmt4 j) i f := by
  induction ds generalizing k with
  | nil => simp [nameSubdirs] at hx
  | cons d ds ih =>
    rcases List.mem_append.mp hx with hx' | hx'
    · obtain ⟨i, f, _, _, h3⟩ := nameFiles_mem hx'
      exact ⟨k, i, f, Nat.le_refl _, by simp, h3⟩
    · obtain ⟨j, i, f, h1, h2, h3⟩ := ih hx'
      exact ⟨j, i, f, by omega, by simp only [List.length_cons]; omega, h3⟩

theorem nameSubdirs_pairwise (mIdx : PStr) (k : Nat) (ds : List Subdir)
    (hk : k + ds.length ≤ 10000)
    (hf : ∀ d ∈ ds, (selectFiles d).length ≤ 10000) :
    (nameSubdirs mIdx k ds).Pairwise pstrLt := by
  induction ds generalizing k with
  | nil => simp [nameSubdirs]
  | cons d ds ih =>
    simp only [nameSubdirs]
    rw [List.pairwise_append]
    simp only [List.length_cons] at hk
    refine ⟨nameFiles_pairwise _ _ 0 _ (by simpa using hf d (by simp)),
      ih (k + 1) (by omega) (fun e he => hf e (List.mem_cons_of_mem d he)), ?_⟩
    intro x hx y hy
    obtain ⟨i, f, _, _, rfl⟩ := nameFiles_mem hx
    obtain ⟨j, i', g, hj1, hj2, rfl⟩ := nameSubdirs_mem hy
    exact synthName_lt_sub (by omega) (by omega) i i' f g

/-- Every result of `selectFiles` is at most as long as the subgroup's raw
file list (filtering and sorting do not lengthen it). -/
theorem selectFiles_length_le (d : Subdir) :
    (selectFiles d).length ≤ d.files.length := by
  unfold selectFiles
  split
  · exact le_trans (le_of_eq (sortLe_perm _ _).length_eq) (List.length_filter_le _ _)
  · exact le_trans (le_of_eq (sortLe_perm _ _).length_eq) (List.length_filter_le _ _)

theorem processModule_pairwise (m : CModule) (hsub : m.subdirs.length ≤ 10000)
    (hf : ∀ d ∈ m.subdirs, d.files.length ≤ 10000) :
    (processModule m).Pairwise pstrLt := by
  apply nameSubdirs_pairwise
  · have h1 := (sortLe_perm (fun d e => decide (subdirKey d.name < subdirKey e.name) ||
      (decide (subdirKey d.name = subdirKey e.name) && pstrLeB d.name e.name))
      (m.subdirs.filter (fun d => decide (pstrLower d.name ∉ excludedDirs)))).length_eq
    have h2 := List.length_filter_le (fun d => decide (pstrLower d.name ∉ excludedDirs)) m.subdirs
    simp only [sortSubdirs, Nat.zero_add]
    omega
  · intro d hd
    have hd1 : d ∈ m.subdirs.filter (fun d => decide (pstrLower d.name ∉ excludedDirs)) :=
      (sortLe_perm _ _).mem_iff.mp hd
    have hd2 : d ∈ m.subdirs := (List.mem_filter.mp hd1).1
    exact le_trans (selectFiles_length_le d) (hf d hd2)

theorem processModule_mem {m : CModule} {x : PStr} (hx : x ∈ processModule m) :
    ∃ s i f, x = synthName (fmt4 m.num) s i f := by
  obtain ⟨j, i, f, _, _, h3⟩ := nameSubdirs_mem hx
  exact ⟨fmt4 j, i, f, h3⟩

/-- With pairwise-distinct module numbers the module sort is strictly
increasing in the module number. -/
theorem sortModules_pairwise_lt (ms : List CModule)
    (hdistinct : ms.Pairwise (fun a b => a.num ≠ b.num)) :
    (sortModules ms).Pairwise (fun a b => a.num < b.num) := by
  have hle : (sortModules ms).Pairwise
      (fun a b => (fun x y : CModule => decide (x.num ≤ y.num)) a b = true) :=
    sortLe_pairwise
      (fun a b => by
        rcases Nat.le_total a.num b.num with h | h
        · exact Or.inl (by simpa)
        · exact Or.inr (by simpa))
      (fun a b c h1 h2 => by
        simp only [decide_eq_true_eq] at h1 h2 ⊢
        omega) ms
  have hne : (sortModules ms).Pairwise (fun a b => a.num ≠ b.num) :=
    ((sortLe_perm _ ms).pairwise_iff (fun h => Ne.symm h)).mpr hdistinct
  exact (hle.and hne).imp (fun h => by
    have h1 := h.1
    have h2 := h.2
    simp only [decide_eq_true_eq] at h1
    omega)

/-- C1: for every well-formed course tree (modules carrying distinct
`<integer>.` numbers below 10000, at most 10000 subgroups per module and
at most 10000 files per subgroup), the synthetic output filenames produced
by `_process_course_files` are strictly increasing in code-point
lexicographic order in exactly the order the files are enumerated
(modules ascending, subgroups in their sorted order, files
alphabetically) — so sorting them lexicographically reproduces the
enumeration order. -/
theorem c1_synthetic_names_strictly_sorted (ms : List CModule)
    (hdistinct : ms.Pairwise (fun a b => a.num ≠ b.num))
    (hnum : ∀ m ∈ ms, m.num < 10000)
    (hsub : ∀ m ∈ ms, m.subdirs.length ≤ 10000)
    (hfiles : ∀ m ∈ ms, ∀ d ∈ m.subdirs, d.files.length ≤ 10000) :
    (processCourseFiles ms).Pairwise pstrLt := by
  unfold processCourseFiles
  rw [List.flatMap_def, List.pairwise_flatten]
  constructor
  · intro l hl
    obtain ⟨m, hm, rfl⟩ := List.mem_map.mp hl
    have hm' : m ∈ ms := (sortLe_perm _ ms).mem_iff.mp hm
    exact processModule_pairwise m (hsub m hm') (hfiles m hm')
  · apply List.pairwise_map.mpr
    have hlt := sortModules_pairwise_lt ms hdistinct
    refine hlt.imp_of_mem ?_
    intro m₁ m₂ h1 h2 hR x hx y hy
    obtain ⟨s, i, f, rfl⟩ := processModule_mem hx
    obtain ⟨t, i', g, rfl⟩ := processModule_mem hy
    exact synthName_lt_mod hR (hnum m₂ ((sortLe_perm _ ms).mem_iff.mp h2)) s t i i' f g

/-- A concrete course tree: module 2 with a numbered subgroup and a
`summaries` subgroup, module 1 with a numbered subgroup, listed out of
order as a directory scan may produce them. -/
def c1ex : List CModule :=
  [⟨2, [⟨("01.lessons").data, [("b.pdf").data, ("a.pdf").data]⟩,
        ⟨("summaries").data, [("x_summary.md").data]⟩]⟩,
   ⟨1, [⟨("05.notes").data, [("n.md").data]⟩]⟩]

/-- Witness for C1 at the concrete course tree `c1ex`. -/
theorem c1_synthetic_names_strictly_sorted_witness :
    (c1ex.Pairwise (fun a b => a.num ≠ b.num) ∧ (∀ m ∈ c1ex, m.num < 10000) ∧
      (∀ m ∈ c1ex, m.subdirs.length ≤ 10000) ∧
      (∀ m ∈ c1ex, ∀ d ∈ m.subdirs, d.files.length ≤ 10000)) ∧
    (processCourseFiles c1ex).Pairwise pstrLt :=
  ⟨⟨by decide, by decide, by decide, by decide⟩,
    c1_synthetic_names_strictly_sorted c1ex (by decide) (by decide) (by decide) (by decide)⟩

/-- C3 counterexample: a `summaries` subdirectory carrying a numeric
prefix does *not* receive the maximal sub-order key — `"02.summaries"` is
keyed 2, strictly below sibling `"05.extra-notes"`'s key 5, refuting the
claim that summaries sorts after every sibling regardless of numeric
prefix. -/
theorem c3_numbered_summaries_key_counterexample :
    subdirKey (("02.summaries").data) = 2 ∧
    subdirKey (("05.extra-notes").data) = 5 ∧
    ¬ subdirKey (("05.extra-notes").data) < subdirKey (("02.summaries").data) := by
  decide

/-- C3 amended: the sub-order key is 999 exactly for names whose lowered
*whole* name is `summaries`; a parsed leading `<digits>.` number keys any
other name, 999 is the default for unnumbered names (so unnumbered
siblings tie with `summaries` rather than sort before it), and a plain
`summaries` sorts strictly after precisely its numbered siblings with
numbers below 999. -/
theorem c3_amended_subdirKey :
    (∀ name : PStr, pstrLower name = ("summaries").data → subdirKey name = 999) ∧
    (∀ (name : PStr) (n : Nat), pstrLower name ≠ ("summaries").data →
      leadingNumber name = some n → subdirKey name = n) ∧
    (∀ name : PStr, pstrLower name ≠ ("summaries").data →
      leadingNumber name = none → subdirKey name = 999) ∧
    (∀ (name : PStr) (n : Nat), pstrLower name ≠ ("summaries").data →
      leadingNumber name = some n → n < 999 →
      subdirKey name < subdirKey (("summaries").data)) := by
  have hsum : subdirKey (("summaries").data) = 999 := by decide
  refine ⟨?_, ?_, ?_, ?_⟩
  · intro name h
    simp [subdirKey, h]
  · intro name n h hn
    simp [subdirKey, h, hn]
  · intro name h hn
    simp [subdirKey, h, hn]
  · intro name n h hn hlt
    rw [hsum]
    simp only [subdirKey, hn, Option.getD_some, if_neg h]
    omega

/-- Witness for the amended C3 at concrete subdirectory names. -/
theorem c3_amended_subdirKey_witness :
    subdirKey (("Summaries").data) = 999 ∧
    subdirKey (("05.extra-notes").data) = 5 ∧
    subdirKey (("05.extra-notes").data) < subdirKey (("summaries").data) :=
  ⟨c3_amended_subdirKey.1 _ (by decide),
    c3_amended_subdirKey.2.1 _ 5 (by decide) (by decide),
    c3_amended_subdirKey.2.2.2 _ 5 (by decide) (by decide) (by decide)⟩

/-- The batch slices `pdf_files[i : i + 10]` for `i in range(0, len(pdf_files), 10)`
taken by `_merge_pdf_files` (`generator.py` lines 807-813). -/
def mergeBatches {α : Type} (l : List α) : List (List α) :=
  (List.range ((l.length + 9) / 10)).map (fun k => (l.drop (10 * k)).take 10)

/-- The single failure the batched merge path raises itself
(`generator.py` line 834). -/
inductive MergeErr : Type
  | noBatches
deriving DecidableEq

/-- The batched merge path of `_merge_pdf_files` (lines 800-834): each
batch is merged into an intermediate — a batch whose merge raises is
skipped and processing continues — then the intermediates are merged into
the final output; with zero intermediates it raises instead of writing an
output.  `ok` tells which batch merges succeed; merging concatenates. -/
def batchedMergePath {α : Type} (l : List α) (ok : List α → Bool) :
    Except MergeErr (List α) :=
  let batchFiles := (mergeBatches l).filter ok
  if batchFiles.isEmpty then Except.error MergeErr.noBatches
  else Except.ok batchFiles.flatten

theorem mergeBatches_flatten {α : Type} :
    ∀ (N : Nat) (l : List α), l.length ≤ N → (mergeBatches l).flatten = l := by
  intro N
  induction N with
  | zero =>
    intro l h
    have hl : l = [] := List.eq_nil_of_length_eq_zero (by omega)
    subst hl
    simp [mergeBatches]
  | succ N ih =>
    intro l h
    by_cases hl : l = []
    · subst hl
      simp [mergeBatches]
    · have hlen : 1 ≤ l.length := List.length_pos.mpr hl
      have key : (l.length + 9) / 10 = ((l.drop 10).length + 9) / 10 + 1 := by
        simp only [List.length_drop]
        omega
      have htail : ∀ k : Nat, (l.drop (10 * Nat.succ k)).take 10 =
          ((l.drop 10).drop (10 * k)).take 10 := by
        intro k
        rw [List.drop_drop]
        have h10 : 10 + 10 * k = 10 * Nat.succ k := by omega
        rw [h10]
      rw [mergeBatches, key, List.range_succ_eq_map]
      simp only [List.map_cons, List.flatten_cons, Nat.mul_zero, List.drop_zero,
        List.map_map, Function.comp_def]
      have hmap : (List.range (((l.drop 10).length + 9) / 10)).map
            (fun k => (l.drop (10 * Nat.succ k)).take 10) =
          mergeBatches (l.drop 10) := by
        rw [mergeBatches]
        exact List.map_congr_left (fun k _ => htail k)
      rw [hmap, ih (l.drop 10) (by simp only [List.length_drop]; omega)]
      exact List.take_append_drop 10 l

/-- C5: the batched merge engine partitions any ordered input list into
`⌈n/10⌉` consecutive batches — `n/10` full batches of 10 followed by one
of `n mod 10` when nonzero — whose concatenation is the input, and when
zero intermediate batch files were produced it fails with an error rather
than producing an output. -/
theorem c5_batch_partition {α : Type} (l : List α) :
    (mergeBatches l).map List.length =
      List.replicate (l.length / 10) 10 ++
        (if l.length % 10 = 0 then [] else [l.length % 10]) ∧
    (mergeBatches l).length = (l.length + 9) / 10 ∧
    (mergeBatches l).flatten = l ∧
    (∀ ok : List α → Bool, (mergeBatches l).filter ok = [] →
      batchedMergePath l ok = Except.error MergeErr.noBatches) := by
  refine ⟨?_, ?_, mergeBatches_flatten l.length l (Nat.le_refl _), ?_⟩
  · apply List.ext_getElem
    · simp only [List.length_map, mergeBatches, List.length_range, List.length_append,
        List.length_replicate]
      split_ifs with h <;> simp <;> omega
    · intro i h1 h2
      simp only [List.length_map, mergeBatches, List.length_range] at h1
      simp only [mergeBatches, List.getElem_map, List.getElem_range, List.length_take,
        List.length_drop]
      rw [List.getElem_append]
      by_cases hi : i < (List.replicate (l.length / 10) 10).length
      · rw [dif_pos hi, List.getElem_replicate]
        simp only [List.length_replicate] at hi
        rw [Nat.min_def]
        split_ifs <;> omega
      · rw [dif_neg hi]
        simp only [List.length_replicate] at hi
        have hmod : l.length % 10 ≠ 0 := by omega
        simp only [if_neg hmod, List.getElem_singleton]
        rw [Nat.min_def]
        split_ifs <;> omega
  · simp [mergeBatches]
  · intro ok hok
    simp [batchedMergePath, hok]

/-- Witness for C5 at a 23-element input: exactly 3 batches of sizes 10,
10 and 3, and the error case at an all-failing batch oracle. -/
theorem c5_batch_partition_witness :
    (mergeBatches (List.range 23)).map List.length = [10, 10, 3] ∧
    (mergeBatches (List.range 23)).length = 3 ∧
    (mergeBatches (List.range 23)).flatten = List.range 23 ∧
    batchedMergePath (List.range 23) (fun _ => false) = Except.error MergeErr.noBatches :=
  ⟨((c5_batch_partition (List.range 23)).1).trans (by decide),
    ((c5_batch_partition (List.range 23)).2.1).trans (by decide),
    (c5_batch_partition (List.range 23)).2.2.1,
    (c5_batch_partition (List.range 23)).2.2.2 (fun _ => false) (by decide)⟩

/-- Model of the control flow of `_merge_pdf_files` (`generator.py` lines
800-860).  `batched` summarizes the whole try-block (batch merging, the
final merge of the intermediates and bookmark attachment); on any
exception the code falls back to exactly one direct `merge_pdfs` call on
the complete original input list, whose outcome `directMerge files`
decides the result; a bookmark failure inside the fallback
(`_fallbackBookmark`) is logged and swallowed. -/
def mergePdfFiles {α π ε : Type} (files : List α) (outputFile : π)
    (batched : Except ε Unit) (directMerge : List α → Except ε Unit)
    (_fallbackBookmark : Except ε Unit) : Except ε π :=
  match batched with
  | Except.ok _ => Except.ok outputFile
  | Except.error _ =>
    match directMerge files with
    | Except.ok _ => Except.ok outputFile
    | Except.error e => Except.error e

/-- C6: if the batched merge path raises, the engine falls back to one
direct merge of the complete original input list and returns the output
path; only when that fallback also raises does the error propagate (and
it is the fallback's error that does) — a swallowed bookmark failure
never changes the result. -/
theorem c6_merge_fallback {α π ε : Type} (files : List α) (out : π)
    (batched : Except ε Unit) (dm : List α → Except ε Unit)
    (fb : Except ε Unit) :
    (batched = Except.ok () →
      mergePdfFiles files out batched dm fb = Except.ok out) ∧
    (∀ e, batched = Except.error e → dm files = Except.ok () →
      mergePdfFiles files out batched dm fb = Except.ok out) ∧
    (∀ e e', batched = Except.error e → dm files = Except.error e' →
      mergePdfFiles files out batched dm fb = Except.error e') := by
  refine ⟨?_, ?_, ?_⟩
  · intro h
    simp [mergePdfFiles, h]
  · intro e h1 h2
    simp [mergePdfFiles, h1, h2]
  · intro e e' h1 h2
    simp [mergePdfFiles, h1, h2]

/-- Witness for C6 at concrete outcomes: a failing batched path plus a
succeeding fallback yields the output even when bookmark attachment
fails, and a doubly failing merge surfaces the fallback's error. -/
theorem c6_merge_fallback_witness :
    mergePdfFiles [1, 2] 0 (Except.error 7) (fun _ => Except.ok ())
        (Except.error 9) = Except.ok 0 ∧
    mergePdfFiles [1, 2] 0 (Except.error 7) (fun _ => Except.error 8)
        (Except.ok ()) = Except.error 8 :=
  ⟨(c6_merge_fallback [1, 2] 0 (Except.error 7) (fun _ => Except.ok ())
      (Except.error 9)).2.1 7 rfl rfl,
    (c6_merge_fallback [1, 2] 0 (Except.error 7) (fun _ => Except.error 8)
      (Except.ok ())).2.2 7 8 rfl rfl⟩

/-- An artifact of the ordered content sequence, as the TOC loop sees it:
its classification by filename, plus the actual page count of its
(normalized) PDF — which the loop never reads. -/
inductive ArtifactKind : Type
  | divider (moduleNum : Nat)
  | content (name : PStr)
deriving DecidableEq

structure Artifact where
  kind : ArtifactKind
  pageCount : Nat
deriving DecidableEq

/-- Model of the TOC page-number loop of `generate_course_pdf`
(`generator.py` lines 240-322): the running counter starts at 3 (the
cover is page 1, the TOC page 2) and, in the divider branch as in the
content branch, advances by exactly 1 per artifact (`current_page += 1`),
never consulting the artifact's actual page count. -/
def tocPagesFrom : Nat → List Artifact → List Nat
  | _, [] => []
  | cur, a :: rest =>
    match a.kind with
    | ArtifactKind.divider _ => cur :: tocPagesFrom (cur + 1) rest
    | ArtifactKind.content _ => cur :: tocPagesFrom (cur + 1) rest

/-- The page numbers the source assigns to the ordered artifacts. -/
def codeAssignedPages (arts : List Artifact) : List Nat := tocPagesFrom 3 arts

/-- Modelled from the spec: the two-pass assignment the specification
states — cover page 1, TOC page 2, and each subsequent artifact assigned
3 plus the sum of the *actual* page counts of all preceding artifacts,
i.e. the counter advances by each artifact's own page count. -/
def specPagesFrom : Nat → List Artifact → List Nat
  | _, [] => []
  | cur, a :: rest => cur :: specPagesFrom (cur + a.pageCount) rest

/-- Modelled from the spec: the true 1-indexed start pages in the merged
document. -/
def specAssignedPages (arts : List Artifact) : List Nat := specPagesFrom 3 arts

/-- C2 (failing input): for a two-page divider followed by a one-page
content artifact, the code assigns the content artifact page 4 — it
advances by 1, not by the divider's actual page count — while the true
start page in the merged document is 5.  The claim's advance-by-actual-
page-count property fails on the code. -/
theorem c2_page_advance_evaluation :
    codeAssignedPages
        [⟨ArtifactKind.divider 1, 2⟩, ⟨ArtifactKind.content (("a.pdf").data), 1⟩]
      = [3, 4] ∧
    specAssignedPages
        [⟨ArtifactKind.divider 1, 2⟩, ⟨ArtifactKind.content (("a.pdf").data), 1⟩]
      = [3, 5] ∧
    codeAssignedPages
        [⟨ArtifactKind.divider 1, 2⟩, ⟨ArtifactKind.content (("a.pdf").data), 1⟩]
      ≠ specAssignedPages
        [⟨ArtifactKind.divider 1, 2⟩, ⟨ArtifactKind.content (("a.pdf").data), 1⟩] := by
  refine ⟨rfl, rfl, ?_⟩
  decide

/-- Renderer outcome for one source file, abstracting whether the
conversion call raises. -/
inductive ConvOutcome : Type
  | success
  | failure
deriving DecidableEq

/-- Model of `PDFGenerator._convert_file_to_pdf` (`generator.py` lines
729-768): a file with a supported extension (`.pdf`, `.md`, `.html`,
`.txt`, after lowering) yields its output path unless the copy/renderer
raises, in which case — exactly as for an unsupported extension — `None`
is returned and no artifact exists. -/
def convertFileToPdf (f : PStr) (newFilename : PStr) (outcome : ConvOutcome) :
    Option PStr :=
  let ext := pstrLower (extOf f)
  if ext = (".pdf").data ∨ ext = (".md").data ∨ ext = (".html").data ∨
      ext = (".txt").data then
    match outcome with
    | ConvOutcome.success => some newFilename
    | ConvOutcome.failure => none
  else none

/-- The caller's append loop (`generator.py` lines 443-470): each file is
converted in turn and only a non-`None` result is appended. -/
def appendConverted : List (PStr × PStr × ConvOutcome) → List PStr
  | [] => []
  | (f, nn, o) :: rest =>
    match convertFileToPdf f nn o with
    | some p => p :: appendConverted rest
    | none => appendConverted rest

/-- C8: a failed conversion returns no artifact whatever the extension;
an unsupported extension returns no artifact whatever the renderer would
do; and a file whose conversion yields no artifact is simply absent from
the run's output — every other file is still converted and included, so
no single bad or unsupported source file aborts the run. -/
theorem c8_bad_file_skipped :
    (∀ f nn : PStr, convertFileToPdf f nn ConvOutcome.failure = none) ∧
    (∀ (f nn : PStr) (o : ConvOutcome),
      ¬ (pstrLower (extOf f) = (".pdf").data ∨ pstrLower (extOf f) = (".md").data ∨
          pstrLower (extOf f) = (".html").data ∨ pstrLower (extOf f) = (".txt").data) →
      convertFileToPdf f nn o = none) ∧
    (∀ (xs ys : List (PStr × PStr × ConvOutcome)) (f nn : PStr) (o : ConvOutcome),
      convertFileToPdf f nn o = none →
      appendConverted (xs ++ (f, nn, o) :: ys) = appendConverted xs ++ appendConverted ys) := by
  refine ⟨?_, ?_, ?_⟩
  · intro f nn
    simp only [convertFileToPdf]
    split <;> rfl
  · intro f nn o h
    simp [convertFileToPdf, h]
  · intro xs ys f nn o h
    induction xs with
    | nil => simp [appendConverted, h]
    | cons x xs ih =>
      obtain ⟨xf, xn, xo⟩ := x
      simp only [List.cons_append, appendConverted]
      cases convertFileToPdf xf xn xo <;> simp [ih]

/-- Witness for C8: the spec's `.docx` scenario — the unsupported file in
the middle contributes nothing while both siblings are converted and
included. -/
theorem c8_bad_file_skipped_witness :
    convertFileToPdf (("b.docx").data) (("0001_0000_0001_b.docx").data)
        ConvOutcome.success = none ∧
    appendConverted
        ([((("a.md").data), (("0001_0000_0000_a.pdf").data), ConvOutcome.success)] ++
          ((("b.docx").data), (("0001_0000_0001_b.docx").data), ConvOutcome.success) ::
          [((("c.pdf").data), (("0001_0000_0002_c.pdf").data), ConvOutcome.success)]) =
      appendConverted
          [((("a.md").data), (("0001_0000_0000_a.pdf").data), ConvOutcome.success)] ++
        appendConverted
          [((("c.pdf").data), (("0001_0000_0002_c.pdf").data), ConvOutcome.success)] :=
  ⟨c8_bad_file_skipped.2.1 _ _ ConvOutcome.success (by decide),
    c8_bad_file_skipped.2.2 _ _ _ _ ConvOutcome.success
      (c8_bad_file_skipped.2.1 _ _ ConvOutcome.success (by decide))⟩

/-- One input to `merge_pdfs`: whether its path exists, whether
`merger.append` succeeds on it, and its pages. -/
structure MInput : Type where
  pathExists : Bool
  appendOk : Bool
  pages : List Nat
deriving DecidableEq

/-- The input loop of `merge_pdfs` (`converters.py` lines 523-532): a
nonexistent path is skipped with a warning, an `append` exception is
caught with a warning, and every successfully appended input contributes
its pages in list order. -/
def mergeLoop : List MInput → List Nat
  | [] => []
  | f :: rest =>
    if f.pathExists then
      (if f.appendOk then f.pages ++ mergeLoop rest else mergeLoop rest)
    else mergeLoop rest

/-- Model of `merge_pdfs` (`converters.py` lines 500-542): only the final
write (`writeOk`) can raise; the inputs themselves never do. -/
def mergePdfs (files : List MInput) (writeOk : Bool) : Except Unit (List Nat) :=
  if writeOk then Except.ok (mergeLoop files) else Except.error ()

/-- C10: `merge_pdfs` never raises because of a nonexistent or
unappendable input — with a succeeding write it returns for *every* input
list; its output is the concatenation, in list order, of exactly the
pages of the inputs that exist and append successfully; and the output
page count equals the sum of all input page counts under the precondition
that every input exists and appends successfully. -/
theorem c10_merge_skips_bad_inputs :
    (∀ files : List MInput, mergePdfs files true = Except.ok (mergeLoop files)) ∧
    (∀ files : List MInput, mergeLoop files =
      (files.filter (fun f => f.pathExists && f.appendOk)).flatMap MInput.pages) ∧
    (∀ files : List MInput, (∀ f ∈ files, f.pathExists = true ∧ f.appendOk = true) →
      (mergeLoop files).length = (files.map (fun f => f.pages.length)).sum) := by
  have hconc : ∀ files : List MInput, mergeLoop files =
      (files.filter (fun f => f.pathExists && f.appendOk)).flatMap MInput.pages := by
    intro files
    induction files with
    | nil => rfl
    | cons f rest ih =>
      simp only [mergeLoop, List.filter_cons]
      by_cases he : f.pathExists
      · by_cases ha : f.appendOk
        · simp [he, ha, ih]
        · simp [he, ha, ih]
      · simp [he, ih]
  refine ⟨fun files => rfl, hconc, ?_⟩
  intro files hall
  induction files with
  | nil => rfl
  | cons f rest ih =>
    have hf := hall f (List.mem_cons_self f rest)
    simp only [mergeLoop, hf.1, hf.2, if_true, List.length_append, List.map_cons,
      List.sum_cons, ih (fun g hg => hall g (List.mem_cons_of_mem f hg))]

/-- Witness for C10: a run with a missing middle input concatenates only
the surviving inputs, and an all-good run's page count is the sum. -/
theorem c10_merge_skips_bad_inputs_witness :
    mergePdfs [⟨true, true, [1, 2]⟩, ⟨false, true, [3]⟩, ⟨true, true, [4]⟩] true =
      Except.ok (mergeLoop [⟨true, true, [1, 2]⟩, ⟨false, true, [3]⟩, ⟨true, true, [4]⟩]) ∧
    mergeLoop [⟨true, true, [1, 2]⟩, ⟨false, true, [3]⟩, ⟨true, true, [4]⟩] = [1, 2, 4] ∧
    (mergeLoop [⟨true, true, [1, 2]⟩, ⟨true, true, [3]⟩]).length =
      ([⟨true, true, [1, 2]⟩, ⟨true, true, ([3] : List Nat)⟩].map
        (fun f : MInput => f.pages.length)).sum :=
  ⟨c10_merge_skips_bad_inputs.1 _,
    (c10_merge_skips_bad_inputs.2.1 _).trans (by decide),
    c10_merge_skips_bad_inputs.2.2 _ (by decide)⟩

/-- Content of a PDF page: an abstract source stream, possibly wrapped by
a placement transform (`merge_transformed_page` with uniform scale and
translation applies `placed s s dx dy`; an untransformed `merge_page`
leaves the content as it is). -/
inductive PageContent : Type
  | src (id : Nat)
  | placed (sx sy dx dy : ℚ) (c : PageContent)
deriving DecidableEq

/-- A PDF page: its mediabox geometry and its placed content. -/
structure Page where
  width : ℚ
  height : ℚ
  content : PageContent
deriving DecidableEq

/-- `standard_paper_sizes` of `normalize_pdf_page_size`
(`converters.py` lines 55-64), in dictionary order: letter, legal,
tabloid, a4, a3, a5, in points. -/
def standardPaperSizes : List (ℚ × ℚ) :=
  [(612, 792), (612, 1008), (792, 1224), (595, 842), (842, 1190), (420, 595)]

/-- The standard-size detection loop (`converters.py` lines 79-91): per
paper size, first the direct orientation within 1% tolerance, then the
rotated orientation. -/
def detectStd (cw ch : ℚ) : List (ℚ × ℚ) → Option (ℚ × ℚ)
  | [] => none
  | (sw, sh) :: rest =>
    if |cw - sw| / sw ≤ 1/100 ∧ |ch - sh| / sh ≤ 1/100 then some (sw, sh)
    else if |cw - sh| / sh ≤ 1/100 ∧ |ch - sw| / sw ≤ 1/100 then some (sh, sw)
    else detectStd cw ch rest

/-- Per-page step of `normalize_pdf_page_size` (`converters.py` lines
73-149).  A detected standard size is kept unchanged whether or not it
matches the target (lines 95-104); a page within 5% of the target is kept
(lines 108-113); otherwise the page is rewritten onto a blank target-size
page — with aspect ratio preserved the content is placed with the uniform
scale `min(tw/w, th/h) * 0.95` and centering offsets (lines 122-147);
without, the source merely computes per-axis scales and offsets and then
calls `merge_page` with no transformation (lines 131-141), so the content
is placed unchanged. -/
def normalizePage (tw th : ℚ) (preserveAspect stdSizes : Bool) (p : Page) : Page :=
  match (if stdSizes then detectStd p.width p.height standardPaperSizes else none) with
  | some (dw, dh) =>
    if |dw - tw| ≤ 1/100 * tw ∧ |dh - th| ≤ 1/100 * th then p
    else p
  | none =>
    if |p.width - tw| / tw ≤ 5/100 ∧ |p.height - th| / th ≤ 5/100 then p
    else
      if preserveAspect then
        Page.mk tw th
          (PageContent.placed (min (tw / p.width) (th / p.height) * (95/100))
            (min (tw / p.width) (th / p.height) * (95/100))
            ((tw - p.width * (min (tw / p.width) (th / p.height) * (95/100))) / 2)
            ((th - p.height * (min (tw / p.width) (th / p.height) * (95/100))) / 2)
            p.content)
      else
        Page.mk tw th p.content

/-- Page-by-page normalization of a document. -/
def normalizePdf (tw th : ℚ) (preserveAspect stdSizes : Bool)
    (pages : List Page) : List Page :=
  pages.map (normalizePage tw th preserveAspect stdSizes)

/-- A page already exactly of target geometry is kept unchanged, whatever
the flags: a detected standard size is kept either way, and otherwise the
within-5%-of-target check holds with slack zero. -/
theorem normalizePage_keep_target (tw th : ℚ) (pa ss : Bool) (c : PageContent) :
    normalizePage tw th pa ss (Page.mk tw th c) = Page.mk tw th c := by
  simp only [normalizePage]
  split
  · split_ifs <;> rfl
  · rw [if_pos ?_]
    constructor <;> rw [sub_self, abs_zero, zero_div] <;> norm_num

/-- Every output page of the per-page step is either the input page
unchanged or a page of exactly target geometry. -/
theorem normalizePage_cases (tw th : ℚ) (pa ss : Bool) (p : Page) :
    normalizePage tw th pa ss p = p ∨
      ∃ c, normalizePage tw th pa ss p = Page.mk tw th c := by
  simp only [normalizePage]
  split
  · split_ifs <;> exact Or.inl rfl
  · split_ifs with h1 h2
    · exact Or.inl rfl
    · exact Or.inr ⟨_, rfl⟩
    · exact Or.inr ⟨_, rfl⟩

/-- C4: page-size normalization is idempotent — for every document and
every choice of target size and flags, a second pass reproduces the first
pass's output exactly (every page of a normalized document is copied
unchanged by the second pass, with no repeated scaling). -/
theorem c4_normalize_idempotent (tw th : ℚ) (pa ss : Bool) (pages : List Page) :
    normalizePdf tw th pa ss (normalizePdf tw th pa ss pages) =
      normalizePdf tw th pa ss pages := by
  unfold normalizePdf
  rw [List.map_map]
  refine List.map_congr_left (fun p _ => ?_)
  show normalizePage tw th pa ss (normalizePage tw th pa ss p) =
    normalizePage tw th pa ss p
  rcases normalizePage_cases tw th pa ss p with h | ⟨c, h⟩
  · rw [h]
    exact h
  · rw [h, normalizePage_keep_target]

/-- Modelled from the spec: the stretch-to-fill rewrite the specification
describes for `preserveAspectRatio = false` — each axis scaled
independently to 95% of the target and the content anchored at a fixed
corner offset of 2.5% of each target dimension. -/
def specStretchRewrite (tw th : ℚ) (p : Page) : Page :=
  Page.mk tw th
    (PageContent.placed (tw / p.width * (95/100)) (th / p.height * (95/100))
      (tw * (25/1000)) (th * (25/1000)) p.content)

/-- C9 (failing input): a 1000 x 1000 pt page normalized to letter size
with `preserve_aspect_ratio=False` (and `standard_sizes=False`).  The
code rewrites it onto the blank 612 x 792 page with the content placed
*unchanged* — the computed per-axis scales and offsets of lines 133-136
are never applied, `merge_page` at line 139 takes no transformation —
whereas the claim requires per-axis scaling to 95% of the target with
2.5% corner offsets. -/
theorem c9_stretch_branch_evaluation :
    normalizePage 612 792 false false (Page.mk 1000 1000 (PageContent.src 0)) =
      Page.mk 612 792 (PageContent.src 0) ∧
    specStretchRewrite 612 792 (Page.mk 1000 1000 (PageContent.src 0)) =
      Page.mk 612 792
        (PageContent.placed (14535/25000) (18810/25000) (153/10) (99/5)
          (PageContent.src 0)) ∧
    normalizePage 612 792 false false (Page.mk 1000 1000 (PageContent.src 0)) ≠
      specStretchRewrite 612 792 (Page.mk 1000 1000 (PageContent.src 0)) := by
  have h1 : normalizePage 612 792 false false (Page.mk 1000 1000 (PageContent.src 0)) =
      Page.mk 612 792 (PageContent.src 0) := by
    simp only [normalizePage, if_false]
    norm_num
  have h2 : specStretchRewrite 612 792 (Page.mk 1000 1000 (PageContent.src 0)) =
      Page.mk 612 792
        (PageContent.placed (14535/25000) (18810/25000) (153/10) (99/5)
          (PageContent.src 0)) := by
    simp only [specStretchRewrite]
    norm_num
  refine ⟨h1, h2, ?_⟩
  rw [h1, h2]
  intro h
  have := Page.mk.injEq .. ▸ h
  simp only [Page.mk.injEq] at h
  exact absurd h.2.2 (by intro hc; cases hc)

/-- The one error `normalize_pdf_page_size` raises before its try-block
(`converters.py` line 45). -/
inductive NormErr : Type
  | fileNotFound
deriving DecidableEq

/-- Outcome-level model of `normalize_pdf_page_size` (`converters.py`
lines 22-162): a missing input raises `FileNotFoundError` (line 45);
otherwise the output path is the one given, or a fresh temporary path
when none is given (lines 48-52 — as a `str`, the temporary never
compares equal to the input `Path`).  If the page processing or write
(`proc`) raises, the except branch (lines 158-162) swallows the exception
and returns the original input path when the output path differs from the
input — and otherwise falls off the end of the function, returning
Python's `None`. -/
def normalizeOutcome (inputExists : Bool) (pdfFile : PStr)
    (outputFile : Option PStr) (tempPath : PStr) (proc : Except Unit Unit) :
    Except NormErr (Option PStr) :=
  if !inputExists then Except.error NormErr.fileNotFound
  else
    match proc with
    | Except.ok _ => Except.ok (some (outputFile.getD tempPath))
    | Except.error _ =>
      if outputFile ≠ some pdfFile then Except.ok (some pdfFile)
      else Except.ok none

/-- C7 counterexample: for an existing input whose requested output path
equals the input path, a processing exception makes the function return
`None` — not the path to the original input PDF — refuting the claim as
stated. -/
theorem c7_inplace_output_counterexample :
    normalizeOutcome true (("a.pdf").data) (some (("a.pdf").data))
        (("tmp123.pdf").data) (Except.error ()) = Except.ok none ∧
    (Except.ok none : Except NormErr (Option PStr)) ≠
      Except.ok (some (("a.pdf").data)) := by
  refine ⟨rfl, ?_⟩
  simp

/-- C7 amended: for every existing input PDF, a processing exception is
never propagated; the function returns the original input path whenever
the requested output path differs from the input path (always the case
when no output path is given, since the fresh temporary is used), and
returns `None` when the requested output path equals the input path. -/
theorem c7_amended_normalize_exception (pdfFile tempPath : PStr)
    (outputFile : Option PStr) :
    (∀ proc : Except Unit Unit, ∃ r,
      normalizeOutcome true pdfFile outputFile tempPath proc = Except.ok r) ∧
    (outputFile ≠ some pdfFile →
      normalizeOutcome true pdfFile outputFile tempPath (Except.error ()) =
        Except.ok (some pdfFile)) ∧
    (outputFile = some pdfFile →
      normalizeOutcome true pdfFile outputFile tempPath (Except.error ()) =
        Except.ok none) := by
  refine ⟨?_, ?_, ?_⟩
  · intro proc
    cases proc with
    | ok u => exact ⟨some (outputFile.getD tempPath), rfl⟩
    | error e =>
      by_cases h : outputFile = some pdfFile
      · exact ⟨none, by simp [normalizeOutcome, h]⟩
      · exact ⟨some pdfFile, by simp [normalizeOutcome, h]⟩
  · intro h
    simp [normalizeOutcome, h]
  · intro h
    simp [normalizeOutcome, h]

/-- Witness for the amended C7 at concrete paths. -/
theorem c7_amended_normalize_exception_witness :
    normalizeOutcome true (("a.pdf").data) (some (("b.pdf").data))
        (("tmp123.pdf").data) (Except.error ()) =
      Except.ok (some (("a.pdf").data)) ∧
    normalizeOutcome true (("a.pdf").data) (some (("a.pdf").data))
        (("tmp123.pdf").data) (Except.error ()) = Except.ok none :=
  ⟨(c7_amended_normalize_exception (("a.pdf").data) (("tmp123.pdf").data)
      (some (("b.pdf").data))).2.1 (by decide),
    (c7_amended_normalize_exception (("a.pdf").data) (("tmp123.pdf").data)
      (some (("a.pdf").data))).2.2 rfl⟩
